import Mathlib

/-!
Shallow embedding of the Claro invoice scraper (src/main.py) for checking the
natural-language specification against the code.

Python strings are modelled as `List Char`; the file-system visible to the
program is modelled explicitly; Python exceptions are modelled by an error
type `PyErr` together with `Except`.  Every definition mirrors a function of
the source file (the source line numbers are given in the doc comments).
-/

namespace Claro

/-- Python exception kinds relevant to the program.  `staleElem` carries an
opaque payload so that "the last exception is re-raised unchanged" is a
meaningful statement. -/
inductive PyErr where
  | valueErr : PyErr
  | indexErr : PyErr
  | attributeErr : PyErr
  | fileNotFound : PyErr
  | staleElem (payload : Nat) : PyErr
  | timeoutExc : PyErr
  | noSuchElement : PyErr
  | otherErr (payload : Nat) : PyErr
deriving DecidableEq, Repr

/-- Whether an exception is `StaleElementReferenceException` (the only kind the
retry decorator of src/main.py lines 42-61 catches). -/
def PyErr.isStale : PyErr → Bool
  | .staleElem _ => true
  | _ => false

/-- Model of Python `str.split(sep)` for a one-character separator: keeps empty
segments, `splitChar c [] = [[]]` just as `''.split(c) == ['']`. -/
def splitChar (sep : Char) : List Char → List (List Char)
  | [] => [[]]
  | c :: rest =>
    match splitChar sep rest with
    | [] => [[]]
    | g :: gs => if c = sep then [] :: g :: gs else (c :: g) :: gs

/-- Model of Python `str.replace(old, new)` for one-character arguments. -/
def replaceChar (old new : Char) (s : List Char) : List Char :=
  s.map (fun c => if c = old then new else c)

/-- ASCII decimal digit test (the only characters `strptime`'s numeric fields
accept). -/
def isDig (c : Char) : Bool :=
  48 ≤ c.toNat && c.toNat ≤ 57

/-- Numeric value of a decimal digit string (value of the group matched by a
`strptime` numeric directive). -/
def charsVal (s : List Char) : Nat :=
  s.foldl (fun a c => 10 * a + (c.toNat - 48)) 0

/-- Decimal rendering, structurally recursive on a fuel argument so that it
reduces by iota; `natToChars` below always supplies enough fuel, making the
fuel-exhausted branch unreachable. -/
def natToCharsAux : Nat → Nat → List Char
  | 0, _ => []
  | fuel + 1, n =>
    if n < 10 then [Char.ofNat (48 + n)]
    else natToCharsAux fuel (n / 10) ++ [Char.ofNat (48 + n % 10)]

/-- Decimal rendering of a natural number, as produced by Python string
interpolation of a non-negative `int` (used for the collision counter in
`move_and_rename_file` and for dates). -/
def natToChars (n : Nat) : List Char :=
  natToCharsAux (n + 1) n

/-- Gregorian leap-year rule, as implemented by Python's `datetime`. -/
def isLeap (y : Nat) : Bool :=
  y % 4 = 0 && (y % 100 ≠ 0 || y % 400 = 0)

/-- Number of days of month `m` of year `y`, as validated by Python's
`datetime` constructor. -/
def daysInMonth (y m : Nat) : Nat :=
  if m = 2 then (if isLeap y then 29 else 28)
  else if m = 4 ∨ m = 6 ∨ m = 9 ∨ m = 11 then 30
  else 31

/-- A `datetime.date`-like value (year, month, day). -/
structure PyDate where
  year : Nat
  month : Nat
  day : Nat
deriving DecidableEq, Repr

/-- A numeric `strptime` field: digits only, one or two characters, value
between `lo` and `hi` (the regexes for `%d` and `%m` accept exactly the one- or
two-digit strings whose value is in range, leading zero allowed). -/
def okNum (s : List Char) (lo hi : Nat) : Bool :=
  !s.isEmpty && s.length ≤ 2 && s.all isDig && lo ≤ charsVal s && charsVal s ≤ hi

/-- A `%Y` field: exactly four decimal digits. -/
def okYear (s : List Char) : Bool :=
  s.length = 4 && s.all isDig

/-- Model of `datetime.strptime(s, "%d/%m/%Y")` followed by `datetime`'s own
calendar validation: `none` is a `ValueError`.  Mirrors the first parse of
`extract_and_parse_dates` (src/main.py line 31). -/
def strptime_dmy (s : List Char) : Option PyDate :=
  match splitChar '/' s with
  | [ds, ms, ys] =>
    if okNum ds 1 31 && okNum ms 1 12 && okYear ys && 1 ≤ charsVal ys
        && charsVal ds ≤ daysInMonth (charsVal ys) (charsVal ms)
    then some ⟨charsVal ys, charsVal ms, charsVal ds⟩
    else none
  | _ => none

/-- Model of `datetime.strptime(s, "%m/%Y")` (day defaults to 1): mirrors the
second parse of `extract_and_parse_dates` (src/main.py line 35). -/
def strptime_my (s : List Char) : Option PyDate :=
  match splitChar '/' s with
  | [ms, ys] =>
    if okNum ms 1 12 && okYear ys && 1 ≤ charsVal ys
    then some ⟨charsVal ys, charsVal ms, 1⟩
    else none
  | _ => none

/-- Embedding of `extract_and_parse_dates` (src/main.py lines 22-39).
The `try` block catches only `ValueError`; the subscripts `parts[1]` and
`parts[2]` raise an uncaught `IndexError` when the token has fewer than three
`|`-separated segments and the first segment parses as a date. -/
def extract_and_parse_dates (date_string : List Char) :
    Except PyErr (Option PyDate × Option PyDate) :=
  let parts := splitChar '|' date_string
  match strptime_dmy (parts.headD []) with
  | none => .ok (none, none)
  | some first_date =>
    if h : 2 < parts.length then
      let second_date_str := parts[1] ++ '|' :: parts[2]
      match strptime_my (replaceChar '|' '/' second_date_str) with
      | none => .ok (none, none)
      | some second_date => .ok (some first_date, some second_date)
    else
      .error .indexErr

/-- Embedding of the loop body of the `retry_on_stale_element` decorator
(src/main.py lines 46-59).  The behaviour of the wrapped callable at its
`attempt`-th invocation is given by `op attempt`; `left` is the number of loop
iterations still available (`retries - attempt`).  A `StaleElementReference`
failure on the last iteration (`left = 1`, i.e. `attempt == retries - 1`) is
re-raised; any other exception kind is never caught; when the `for` loop runs
zero iterations the wrapper falls through to `return None`. -/
def retry_aux (op : Nat → Except PyErr α) (attempt : Nat) :
    Nat → Except PyErr (Option α)
  | 0 => .ok none
  | left + 1 =>
    match op attempt with
    | .ok v => .ok (some v)
    | .error e =>
      match e with
      | .staleElem p =>
        if left = 0 then .error (.staleElem p)
        else retry_aux op (attempt + 1) left
      | _ => .error e

/-- Embedding of `retry_on_stale_element(retries, delay)` applied to an
operation (src/main.py lines 42-61); the `delay` sleep has no observable
effect in the model. -/
def retry_on_stale_element (op : Nat → Except PyErr α) (retries : Nat) :
    Except PyErr (Option α) :=
  retry_aux op 0 retries

/-- Model of Python `str.lower()` restricted to ASCII (all file names in the
program's scenarios are ASCII). -/
def lowerAscii (s : List Char) : List Char :=
  s.map (fun c => if 65 ≤ c.toNat ∧ c.toNat ≤ 90 then Char.ofNat (c.toNat + 32) else c)

/-- Model of Python `str.endswith(suffix)`. -/
def endswith (suf s : List Char) : Bool :=
  suf.isSuffixOf s

/-- Whether a directory entry is a Chrome in-progress download marker
(src/main.py line 243): `f.endswith('.crdownload') or f.endswith('.tmp')`. -/
def isIncompleteMarker (f : List Char) : Bool :=
  endswith (".crdownload".toList) f || endswith (".tmp".toList) f

/-- The completed-file test of src/main.py line 248:
`f.lower().endswith(file_type)` — note the file name is lowercased but
`file_type` is compared verbatim. -/
def matchesFileType (file_type f : List Char) : Bool :=
  endswith file_type (lowerAscii f)

/-- Model of Python `os.path.join(dir, name)` for a directory path with no
trailing separator. -/
def pathJoin (dir name : List Char) : List Char :=
  dir ++ '/' :: name

/-- Embedding of the `while seconds < timeout` loop of
`wait_for_download_complete` (src/main.py lines 237-254).  `files k` is the
listing of the staging directory observed by the poll of iteration `k` (the
poll that happens after `k + 1` one-second sleeps); `left` is
`timeout - seconds`.  Each iteration: if any incomplete marker is present,
keep waiting; otherwise return the first entry of the expected type, if any;
when the bound elapses return `(false, none)`. -/
def wait_aux (tmp_dir : List Char) (files : Nat → List (List Char))
    (file_type : List Char) (seconds : Nat) :
    Nat → Bool × Option (List Char)
  | 0 => (false, none)
  | left + 1 =>
    let fs := files seconds
    if fs.any isIncompleteMarker then
      wait_aux tmp_dir files file_type (seconds + 1) left
    else
      match fs.filter (matchesFileType file_type) with
      | [] => wait_aux tmp_dir files file_type (seconds + 1) left
      | f :: _ => (true, some (pathJoin tmp_dir f))

/-- Embedding of `wait_for_download_complete(timeout, file_type)`
(src/main.py lines 232-254). -/
def wait_for_download_complete (tmp_dir : List Char)
    (files : Nat → List (List Char)) (timeout : Nat) (file_type : List Char) :
    Bool × Option (List Char) :=
  wait_aux tmp_dir files file_type 0 timeout

/-- The file system visible to the archiver: a finite association of absolute
paths to file contents (contents abstracted as a `Nat` identifier). -/
abbrev FileMap := List (List Char × Nat)

/-- Model of `os.path.exists` over the file map. -/
def pathExists (fs : FileMap) (p : List Char) : Bool :=
  fs.any (fun e => e.1 = p)

/-- Lookup of a file's content. -/
def lookupFile (fs : FileMap) (p : List Char) : Option Nat :=
  (fs.find? (fun e => e.1 = p)).map (·.2)

/-- Model of `os.path.basename`: the part after the last `/`. -/
def basename (p : List Char) : List Char :=
  (splitChar '/' p).getLastD []

/-- Splits `b` at its last `.`, returning the part before it and the part
from it on; `none` when `b` has no dot. -/
def splitAtLastDot : List Char → Option (List Char × List Char)
  | [] => none
  | c :: rest =>
    match splitAtLastDot rest with
    | some (a, e) => some (c :: a, e)
    | none => if c = '.' then some ([], '.' :: rest) else none

/-- Model of `os.path.splitext` on a bare file name (posix rule: the
extension starts at the last dot, unless every character before that dot is
itself a dot, in which case there is no extension). -/
def splitext (b : List Char) : List Char × List Char :=
  match splitAtLastDot b with
  | some (a, e) => if a.any (fun c => c ≠ '.') then (a, e) else (b, [])
  | none => (b, [])

/-- The candidate destination paths tried by the collision loop of
`move_and_rename_file` (src/main.py lines 274-280): candidate 0 is
`download_dir/new_name ++ ext`, candidate `i ≥ 1` is
`download_dir/new_name_i ++ ext`. -/
def candPath (download_dir new_name ext : List Char) (i : Nat) : List Char :=
  if i = 0 then pathJoin download_dir (new_name ++ ext)
  else pathJoin download_dir (new_name ++ '_' :: natToChars i ++ ext)

/-- Embedding of the `while os.path.exists(new_filename)` loop (src/main.py
lines 277-280): returns the first candidate index at or after `i` whose path
does not exist, together with that path.  `fuel` bounds the search; the lemma
`find_free_isSome` shows the bound used by `move_and_rename_file` always
suffices, so the `none` branch is unreachable. -/
def find_free (fs : FileMap) (cand : Nat → List Char) (i : Nat) :
    Nat → Option (Nat × List Char)
  | 0 => none
  | fuel + 1 =>
    if pathExists fs (cand i) then find_free fs cand (i + 1) fuel
    else some (i, cand i)

/-- Model of `shutil.move(src, dst)` where `dst` does not yet exist: the
source entry disappears and its content reappears under `dst`. -/
def moveFile (fs : FileMap) (src dst : List Char) : FileMap :=
  match lookupFile fs src with
  | none => fs
  | some c => fs.filter (fun e => e.1 ≠ src) ++ [(dst, c)]

/-- Embedding of `move_and_rename_file(source_file, prefix)` (src/main.py
lines 256-284), parameterised by the archive directory (`self.download_dir`)
and today's date string (`datetime.now().strftime('%Y-%m-%d')`).  Returns the
value the method returns together with the file system after the call.
A `None` or empty or non-existent source returns `None` with no side effect
(lines 260-261). -/
def move_and_rename_file (fs : FileMap) (download_dir today : List Char)
    (source_file : Option (List Char)) (pfx : List Char) :
    Option (List Char) × FileMap :=
  match source_file with
  | none => (none, fs)
  | some src =>
    if src = [] || !pathExists fs src then (none, fs)
    else
      let original_filename := basename src
      let name_parts := splitext original_filename
      let original_name := name_parts.1
      let original_ext := name_parts.2
      let new_name :=
        if pfx ≠ [] then pfx ++ '_' :: today ++ '_' :: original_name
        else today ++ '_' :: original_name
      match find_free fs (candPath download_dir new_name original_ext) 0
          (fs.length + 1) with
      | some (_, dest) => (some dest, moveFile fs src dest)
      | none => (none, fs)

/-- Modelled from the spec: the case-insensitive suffix match the
specification ascribes to the watcher ("any file whose name ends with
expectedExtension (case-insensitive)"), for comparison with
`matchesFileType`. -/
def endswith_ci (suf s : List Char) : Bool :=
  endswith (lowerAscii suf) (lowerAscii s)

/-- A directory-structured file-system state for the startup sequence:
existing directories, and file entries as (containing directory, name,
content). -/
structure DirState where
  dirs : List (List Char)
  files : List (List Char × List Char × Nat)
deriving DecidableEq, Repr

/-- Embedding of the file-system part of `ClaroInvoiceScraper.__init__`
(src/main.py lines 73-75 and 107) followed by `clear_tmp_directory`
(lines 149-159): `os.makedirs(self.download_dir, exist_ok=True)` creates only
`cwd/downloads`; `clear_tmp_directory` then calls
`os.listdir(self.download_temp_dir)` on `cwd/downloads/tmp`, which raises
`FileNotFoundError` when that directory does not exist, and otherwise unlinks
every regular file in it (subdirectories fail the `os.path.isfile` test and
are kept). -/
def claro_startup (cwd : List Char) (st : DirState) : Except PyErr DirState :=
  let download_dir := pathJoin cwd ("downloads".toList)
  let download_temp_dir := pathJoin download_dir ("tmp".toList)
  let dirs1 := if download_dir ∈ st.dirs then st.dirs else st.dirs ++ [download_dir]
  if download_temp_dir ∈ dirs1 then
    .ok ⟨dirs1, st.files.filter (fun f => f.1 ≠ download_temp_dir)⟩
  else
    .error .fileNotFound

/-- Zero-padded two-digit rendering, as produced by `strftime('%m')` and
`strftime('%d')`. -/
def pad2 (n : Nat) : List Char :=
  if n < 10 then '0' :: natToChars n else natToChars n

/-- Model of `strftime('%Y-%m-%d')` (all years arising in a run have four
digits). -/
def fmtYMD (d : PyDate) : List Char :=
  natToChars d.year ++ '-' :: pad2 d.month ++ '-' :: pad2 d.day

/-- Model of `strftime('%Y-%m')`. -/
def fmtYM (d : PyDate) : List Char :=
  natToChars d.year ++ '-' :: pad2 d.month

/-- An option of the `billDueDate` selector: display text and encoded
value. -/
structure InvOpt where
  text : List Char
  value : List Char
deriving DecidableEq, Repr

/-- The environment `process_accounts` runs against.  The remote UI and the
download mechanics are external collaborators; the model abstracts them to:
the snapshot of account values read at src/main.py line 303, the options of
the invoice selector per account (line 321), and the outcome the download of
invoice `idx` of an account produces — `none` when
`wait_for_download_complete` times out, `some (name, content)` when it
returns the staged file `name` (which then exists with `content`). -/
structure OrchEnv where
  accounts : List (List Char)
  invoices : List Char → List InvOpt
  download : List Char → Nat → Option (List Char × Nat)

/-- Observable run events, in order: the log lines and file outcomes the
claims talk about. -/
inductive Ev where
  | procAccount (acct : List Char)
  | procInvoice (acct text : List Char)
  | archived (path : List Char)
  | moveError
  | downloadTimeout
  | errorCaught (e : PyErr)
  | noAccountsFound
deriving DecidableEq, Repr

/-- Orchestrator state: the file system plus the trace of events so far. -/
structure OrchState where
  fs : FileMap
  events : List Ev
deriving Repr

/-- Control flow leaving a loop body: fall through to the next iteration,
`return None` (the download-failure short-circuit of line 365), or an
exception propagating. -/
inductive Ctl where
  | next
  | stopRun
  | raised (e : PyErr)
deriving DecidableEq, Repr

/-- Embedding of one iteration of the invoice loop (src/main.py lines
321-365).  Element interactions (`invoice.click()`, `use_element_safely`,
the download-button click) are environment effects with no observable outcome
in the claims under scrutiny and are modelled as succeeding.  The key control
flow is faithful: an empty option value skips the body (line 329); a
malformed value makes `extract_and_parse_dates` raise `IndexError`
(uncaught), or return `(None, None)`, in which case
`invoice_ref.strftime('%Y-%m')` at line 334 raises `AttributeError`; a
watcher failure executes `return None` (line 365). -/
def run_one_invoice (env : OrchEnv) (download_dir tmp_dir today acct : List Char)
    (idx : Nat) (opt : InvOpt) (st : OrchState) : OrchState × Ctl :=
  let st1 : OrchState := ⟨st.fs, st.events ++ [.procInvoice acct opt.text]⟩
  if opt.value = [] then (st1, .next)
  else
    match extract_and_parse_dates opt.value with
    | .error e => (st1, .raised e)
    | .ok (some invoice_dt, some invoice_ref) =>
      let filename_pfx := "conta_".toList ++ acct ++ "_ref_".toList
          ++ fmtYM invoice_ref ++ "_venc_".toList ++ fmtYMD invoice_dt
      match env.download acct idx with
      | none => (⟨st1.fs, st1.events ++ [.downloadTimeout]⟩, .stopRun)
      | some (fname, content) =>
        let src := pathJoin tmp_dir fname
        let fs1 := st1.fs ++ [(src, content)]
        match move_and_rename_file fs1 download_dir today (some src) filename_pfx with
        | (some final_path, fs2) => (⟨fs2, st1.events ++ [.archived final_path]⟩, .next)
        | (none, fs2) => (⟨fs2, st1.events ++ [.moveError]⟩, .next)
    | .ok _ => (st1, .raised .attributeErr)

/-- The `for invoice in invoice_date_select.options` loop (src/main.py line
321). -/
def run_invoices (env : OrchEnv) (download_dir tmp_dir today acct : List Char) :
    Nat → List InvOpt → OrchState → OrchState × Ctl
  | _, [], st => (st, .next)
  | idx, opt :: rest, st =>
    match run_one_invoice env download_dir tmp_dir today acct idx opt st with
    | (st2, .next) => run_invoices env download_dir tmp_dir today acct (idx + 1) rest st2
    | (st2, c) => (st2, c)

/-- The `for account_number in account_list` loop (src/main.py lines
305-365): an empty account value skips the invoice work (line 315). -/
def run_accounts (env : OrchEnv) (download_dir tmp_dir today : List Char) :
    List (List Char) → OrchState → OrchState × Ctl
  | [], st => (st, .next)
  | acct :: rest, st =>
    let st2 : OrchState := ⟨st.fs, st.events ++ [.procAccount acct]⟩
    if acct = [] then run_accounts env download_dir tmp_dir today rest st2
    else
      match run_invoices env download_dir tmp_dir today acct 0 (env.invoices acct) st2 with
      | (st3, .next) => run_accounts env download_dir tmp_dir today rest st3
      | (st3, c) => (st3, c)

/-- Embedding of `process_accounts` (src/main.py lines 298-370): the loops
run inside `try`; `except NoSuchElementException` logs "No accounts found",
the broad `except Exception` logs the error; both end the method
gracefully. -/
def process_accounts (env : OrchEnv) (download_dir tmp_dir today : List Char)
    (fs0 : FileMap) : OrchState :=
  match run_accounts env download_dir tmp_dir today env.accounts ⟨fs0, []⟩ with
  | (st, .raised .noSuchElement) => ⟨st.fs, st.events ++ [.noAccountsFound]⟩
  | (st, .raised e) => ⟨st.fs, st.events ++ [.errorCaught e]⟩
  | (st, _) => st

/-- A token of the shape `D/M/YYYY|M|YYYY` assembled from its five digit
fields. -/
def mkToken (ds ms ys ms2 ys2 : List Char) : List Char :=
  ds ++ '/' :: ms ++ '/' :: ys ++ '|' :: ms2 ++ '|' :: ys2

/-- The end-to-end environment of the specification's scenario: accounts
`111` and `222`; account 111 has one invoice with a valid token whose
download succeeds, account 222 has one invoice with an unparseable token. -/
def envScenario : OrchEnv where
  accounts := ["111".toList, "222".toList]
  invoices := fun a =>
    if a = "111".toList then [⟨"03/2024".toList, "5/3/2024|3|2024".toList⟩]
    else [⟨"02/2024".toList, "abc|1|2024".toList⟩]
  download := fun a _ => if a = "111".toList then some ("report.pdf".toList, 7) else none

/-- A single account whose first invoice has an unparseable token and whose
second invoice is valid with an available download: the claim predicts the
second invoice is still processed. -/
def envBadThenGood : OrchEnv where
  accounts := ["333".toList]
  invoices := fun _ =>
    [⟨"bad".toList, "abc|1|2024".toList⟩,
     ⟨"good".toList, "5/3/2024|3|2024".toList⟩]
  download := fun _ _ => some ("report.pdf".toList, 7)

/-- An environment whose first account's only invoice download times out
while a second account with a valid downloadable invoice is still pending. -/
def envTimeoutFirst : OrchEnv where
  accounts := ["111".toList, "222".toList]
  invoices := fun _ => [⟨"03/2024".toList, "5/3/2024|3|2024".toList⟩]
  download := fun a _ => if a = "111".toList then none else some ("report.pdf".toList, 7)

/-! ### Lemmas about the string primitives -/

theorem splitChar_ne_nil (sep : Char) (l : List Char) : splitChar sep l ≠ [] := by
  induction l with
  | nil => simp [splitChar]
  | cons c rest ih =>
    simp only [splitChar]
    cases h : splitChar sep rest with
    | nil => exact absurd h ih
    | cons g gs => by_cases hc : c = sep <;> simp [hc]

theorem splitChar_no_sep (sep : Char) (xs : List Char)
    (h : ∀ c ∈ xs, c ≠ sep) : splitChar sep xs = [xs] := by
  induction xs with
  | nil => rfl
  | cons c rest ih =>
    have hc : c ≠ sep := h c (by simp)
    have ih2 := ih (fun d hd => h d (by simp [hd]))
    simp [splitChar, ih2, hc]

theorem splitChar_append (sep : Char) (xs ys : List Char)
    (h : ∀ c ∈ xs, c ≠ sep) :
    splitChar sep (xs ++ sep :: ys) = xs :: splitChar sep ys := by
  induction xs with
  | nil =>
    simp only [List.nil_append, splitChar]
    cases hy : splitChar sep ys with
    | nil => exact absurd hy (splitChar_ne_nil sep ys)
    | cons g gs => simp
  | cons c rest ih =>
    have hc : c ≠ sep := h c (by simp)
    have ih2 := ih (fun d hd => h d (by simp [hd]))
    simp only [List.cons_append, splitChar]
    rw [List.append_eq, ih2]
    simp [hc]

theorem replaceChar_no_occ (old new : Char) (xs : List Char)
    (h : ∀ c ∈ xs, c ≠ old) : replaceChar old new xs = xs := by
  induction xs with
  | nil => rfl
  | cons c rest ih =>
    have hc : c ≠ old := h c (by simp)
    have ih2 := ih (fun d hd => h d (by simp [hd]))
    simp only [replaceChar, List.map_cons, if_neg hc]
    show c :: replaceChar old new rest = c :: rest
    rw [ih2]

theorem isDig_ne_slash_pipe {c : Char} (h : isDig c = true) :
    c ≠ '/' ∧ c ≠ '|' := by
  constructor
  · rintro rfl; exact absurd h (by decide)
  · rintro rfl; exact absurd h (by decide)

theorem charsVal_append_singleton (a : List Char) (c : Char) :
    charsVal (a ++ [c]) = 10 * charsVal a + (c.toNat - 48) := by
  simp [charsVal, List.foldl_append]

theorem toNat_ofNat_digit {k : Nat} (h : k < 10) :
    (Char.ofNat (48 + k)).toNat = 48 + k := by
  interval_cases k <;> decide

theorem charsVal_natToCharsAux (fuel : Nat) :
    ∀ n, n < fuel → charsVal (natToCharsAux fuel n) = n := by
  induction fuel with
  | zero => omega
  | succ f ih =>
    intro n hn
    by_cases h : n < 10
    · rw [natToCharsAux, if_pos h]
      simp [charsVal, toNat_ofNat_digit h]
    · rw [natToCharsAux, if_neg h]
      rw [charsVal_append_singleton]
      rw [ih (n / 10) (by omega)]
      rw [toNat_ofNat_digit (Nat.mod_lt n (by omega))]
      omega

theorem charsVal_natToChars (n : Nat) : charsVal (natToChars n) = n :=
  charsVal_natToCharsAux (n + 1) n (by omega)

theorem natToChars_injective : Function.Injective natToChars := by
  intro a b h
  have := charsVal_natToChars a
  rw [h, charsVal_natToChars] at this
  omega

theorem daysInMonth_le_31 (y m : Nat) : daysInMonth y m ≤ 31 := by
  unfold daysInMonth
  split
  · split <;> omega
  · split <;> omega

theorem okNum_of_facts {s : List Char} {lo hi : Nat} (h0 : s ≠ [])
    (h2 : s.length ≤ 2) (hd : s.all isDig = true) (hlo : lo ≤ charsVal s)
    (hhi : charsVal s ≤ hi) : okNum s lo hi = true := by
  simp [okNum, h0, h2, hd, hlo, hhi]

theorem strptime_dmy_eval (ds ms ys : List Char)
    (hd0 : ds ≠ []) (hd2 : ds.length ≤ 2) (hdd : ds.all isDig = true)
    (hd1 : 1 ≤ charsVal ds)
    (hm0 : ms ≠ []) (hm2 : ms.length ≤ 2) (hmd : ms.all isDig = true)
    (hm1 : 1 ≤ charsVal ms) (hm12 : charsVal ms ≤ 12)
    (hy4 : ys.length = 4) (hyd : ys.all isDig = true) (hy1 : 1 ≤ charsVal ys)
    (hday : charsVal ds ≤ daysInMonth (charsVal ys) (charsVal ms)) :
    strptime_dmy (ds ++ '/' :: ms ++ '/' :: ys)
      = some ⟨charsVal ys, charsVal ms, charsVal ds⟩ := by
  have hds : ∀ c ∈ ds, c ≠ '/' := fun c hc =>
    (isDig_ne_slash_pipe (by exact (List.all_eq_true.mp hdd) c hc)).1
  have hms : ∀ c ∈ ms, c ≠ '/' := fun c hc =>
    (isDig_ne_slash_pipe (by exact (List.all_eq_true.mp hmd) c hc)).1
  have hys : ∀ c ∈ ys, c ≠ '/' := fun c hc =>
    (isDig_ne_slash_pipe (by exact (List.all_eq_true.mp hyd) c hc)).1
  have e1 : ds ++ '/' :: ms ++ '/' :: ys = ds ++ '/' :: (ms ++ '/' :: ys) := by
    simp only [List.cons_append, List.append_assoc]
  have hsplit : splitChar '/' (ds ++ '/' :: ms ++ '/' :: ys) = [ds, ms, ys] := by
    rw [e1, splitChar_append '/' ds _ hds, splitChar_append '/' ms _ hms,
      splitChar_no_sep '/' ys hys]
  have hd31 : charsVal ds ≤ 31 := le_trans hday (daysInMonth_le_31 _ _)
  simp only [strptime_dmy, hsplit]
  simp [okNum_of_facts hd0 hd2 hdd hd1 hd31,
    okNum_of_facts hm0 hm2 hmd hm1 hm12, okYear, hy4, hyd, hy1, hday]

theorem strptime_my_eval (ms ys : List Char)
    (hm0 : ms ≠ []) (hm2 : ms.length ≤ 2) (hmd : ms.all isDig = true)
    (hm1 : 1 ≤ charsVal ms) (hm12 : charsVal ms ≤ 12)
    (hy4 : ys.length = 4) (hyd : ys.all isDig = true) (hy1 : 1 ≤ charsVal ys) :
    strptime_my (ms ++ '/' :: ys) = some ⟨charsVal ys, charsVal ms, 1⟩ := by
  have hms : ∀ c ∈ ms, c ≠ '/' := fun c hc =>
    (isDig_ne_slash_pipe (by exact (List.all_eq_true.mp hmd) c hc)).1
  have hys : ∀ c ∈ ys, c ≠ '/' := fun c hc =>
    (isDig_ne_slash_pipe (by exact (List.all_eq_true.mp hyd) c hc)).1
  have hsplit : splitChar '/' (ms ++ '/' :: ys) = [ms, ys] := by
    rw [splitChar_append '/' ms _ hms, splitChar_no_sep '/' ys hys]
  simp only [strptime_my, hsplit]
  simp [okNum_of_facts hm0 hm2 hmd hm1 hm12, okYear, hy4, hyd, hy1]

/-- C9: for every valid token of the form `D/M/YYYY|M|YYYY` with in-range
calendar fields, `extract_and_parse_dates` succeeds and the returned due date
and reference period have exactly the year, month and day values of the
corresponding input digit fields (the reference period's day being the
`strptime` default 1). -/
theorem c9_valid_token_parse (ds ms ys ms2 ys2 : List Char)
    (hd0 : ds ≠ []) (hd2 : ds.length ≤ 2) (hdd : ds.all isDig = true)
    (hd1 : 1 ≤ charsVal ds)
    (hm0 : ms ≠ []) (hm2 : ms.length ≤ 2) (hmd : ms.all isDig = true)
    (hm1 : 1 ≤ charsVal ms) (hm12 : charsVal ms ≤ 12)
    (hy4 : ys.length = 4) (hyd : ys.all isDig = true) (hy1 : 1 ≤ charsVal ys)
    (hday : charsVal ds ≤ daysInMonth (charsVal ys) (charsVal ms))
    (hn0 : ms2 ≠ []) (hn2 : ms2.length ≤ 2) (hnd : ms2.all isDig = true)
    (hn1 : 1 ≤ charsVal ms2) (hn12 : charsVal ms2 ≤ 12)
    (hz4 : ys2.length = 4) (hzd : ys2.all isDig = true) (hz1 : 1 ≤ charsVal ys2) :
    extract_and_parse_dates (mkToken ds ms ys ms2 ys2)
      = .ok (some ⟨charsVal ys, charsVal ms, charsVal ds⟩,
             some ⟨charsVal ys2, charsVal ms2, 1⟩) := by
  have hA : ∀ c ∈ ds ++ '/' :: ms ++ '/' :: ys, c ≠ '|' := by
    intro c hc
    have e1 : ds ++ '/' :: ms ++ '/' :: ys = ds ++ '/' :: (ms ++ '/' :: ys) := by
      simp only [List.cons_append, List.append_assoc]
    rw [e1] at hc
    simp only [List.mem_append, List.mem_cons] at hc
    rcases hc with h | h | h | h | h
    · exact (isDig_ne_slash_pipe (List.all_eq_true.mp hdd c h)).2
    · subst h; decide
    · exact (isDig_ne_slash_pipe (List.all_eq_true.mp hmd c h)).2
    · subst h; decide
    · exact (isDig_ne_slash_pipe (List.all_eq_true.mp hyd c h)).2
  have hB : ∀ c ∈ ms2, c ≠ '|' := fun c hc =>
    (isDig_ne_slash_pipe (List.all_eq_true.mp hnd c hc)).2
  have hC : ∀ c ∈ ys2, c ≠ '|' := fun c hc =>
    (isDig_ne_slash_pipe (List.all_eq_true.mp hzd c hc)).2
  have etok : mkToken ds ms ys ms2 ys2
      = (ds ++ '/' :: ms ++ '/' :: ys) ++ '|' :: (ms2 ++ '|' :: ys2) := by
    simp only [mkToken, List.cons_append, List.append_assoc]
  have hsplit : splitChar '|' (mkToken ds ms ys ms2 ys2)
      = [ds ++ '/' :: ms ++ '/' :: ys, ms2, ys2] := by
    rw [etok, splitChar_append '|' _ _ hA, splitChar_append '|' ms2 _ hB,
      splitChar_no_sep '|' ys2 hC]
  have hrep : replaceChar '|' '/' (ms2 ++ '|' :: ys2) = ms2 ++ '/' :: ys2 := by
    have r1 := replaceChar_no_occ '|' '/' ms2 hB
    have r2 := replaceChar_no_occ '|' '/' ys2 hC
    simp only [replaceChar, List.map_append, List.map_cons] at r1 r2 ⊢
    rw [r1, r2]
    simp
  have h1 := strptime_dmy_eval ds ms ys hd0 hd2 hdd hd1 hm0 hm2 hmd hm1 hm12
    hy4 hyd hy1 hday
  have h2 := strptime_my_eval ms2 ys2 hn0 hn2 hnd hn1 hn12 hz4 hzd hz1
  simp only [extract_and_parse_dates, hsplit, List.headD_cons, h1]
  simp [hrep, h2]

/-- C9 witness: the specification's example token `5/3/2024|3|2024` yields
due date 2024-03-05 and reference period 2024-03. -/
theorem c9_valid_token_parse_witness :
    extract_and_parse_dates ("5/3/2024|3|2024".toList)
      = .ok (some ⟨2024, 3, 5⟩, some ⟨2024, 3, 1⟩) := by
  have h := c9_valid_token_parse ("5".toList) ("3".toList) ("2024".toList)
    ("3".toList) ("2024".toList) (by decide) (by decide) (by decide) (by decide)
    (by decide) (by decide) (by decide) (by decide) (by decide) (by decide)
    (by decide) (by decide) (by decide) (by decide) (by decide) (by decide)
    (by decide) (by decide) (by decide) (by decide) (by decide)
  exact h

/-- C2: of the three inputs the claim lists, the two with a non-numeric field
or an out-of-range calendar value do return the failure value `(None, None)`,
but the wrong-segment-count input `1/1/2024|2` makes
`extract_and_parse_dates` raise an uncaught `IndexError` (the `except` clause
catches only `ValueError`), contradicting "returns Failure, never raises". -/
theorem c2_parse_failure_eval :
    extract_and_parse_dates ("31/2/2024|2|2024".toList) = .ok (none, none)
    ∧ extract_and_parse_dates ("abc|1|2024".toList) = .ok (none, none)
    ∧ extract_and_parse_dates ("1/1/2024|2".toList) = .error .indexErr :=
  ⟨rfl, rfl, rfl⟩

/-- C3: startup creates only the archive directory (`downloads`), never the
staging directory (`downloads/tmp`); on an initial file system where the
staging directory is absent, `clear_tmp_directory`'s `os.listdir` raises
`FileNotFoundError`, contradicting "succeeds for every initial file-system
state".  When the staging directory does exist, the purge of its regular
files works as described. -/
theorem c3_startup_eval :
    claro_startup ("/app".toList) ⟨["/app".toList], []⟩ = .error .fileNotFound
    ∧ claro_startup ("/app".toList)
        ⟨["/app".toList, "/app/downloads".toList, "/app/downloads/tmp".toList],
         [("/app/downloads/tmp".toList, "a.pdf".toList, 3)]⟩
      = .ok ⟨["/app".toList, "/app/downloads".toList, "/app/downloads/tmp".toList], []⟩ :=
  ⟨rfl, rfl⟩

/-! ### Lemmas about the retry wrapper -/

theorem retry_aux_succeeds {α} (op : Nat → Except PyErr α) (v : α) :
    ∀ (k attempt left : Nat), k < left →
      (∀ i, i < k → ∃ q, op (attempt + i) = .error (.staleElem q)) →
      op (attempt + k) = .ok v →
      retry_aux op attempt left = .ok (some v) := by
  intro k
  induction k with
  | zero =>
    intro attempt left hlt _ hok
    cases left with
    | zero => omega
    | succ l =>
      have h0 : op attempt = .ok v := by simpa using hok
      simp [retry_aux, h0]
  | succ k ih =>
    intro attempt left hlt hstale hok
    cases left with
    | zero => omega
    | succ l =>
      obtain ⟨q, hq⟩ := hstale 0 (by omega)
      rw [Nat.add_zero] at hq
      have hl : l ≠ 0 := by omega
      have hrec := ih (attempt + 1) l (by omega)
        (fun i hi => by
          obtain ⟨r, hr⟩ := hstale (i + 1) (by omega)
          exact ⟨r, by rwa [show attempt + (i + 1) = attempt + 1 + i by omega] at hr⟩)
        (by rwa [show attempt + 1 + k = attempt + (k + 1) by omega])
      simp [retry_aux, hq, hl, hrec]

theorem retry_aux_all_stale {α} (op : Nat → Except PyErr α) (p : Nat → Nat) :
    ∀ (left attempt : Nat), 1 ≤ left →
      (∀ i, i < left → op (attempt + i) = .error (.staleElem (p (attempt + i)))) →
      retry_aux op attempt left = .error (.staleElem (p (attempt + left - 1))) := by
  intro left
  induction left with
  | zero => omega
  | succ l ih =>
    intro attempt _ hstale
    have h0 : op attempt = .error (.staleElem (p attempt)) := by
      simpa using hstale 0 (by omega)
    by_cases hl : l = 0
    · subst hl
      simp [retry_aux, h0]
    · have hrec := ih (attempt + 1) (by omega)
        (fun i hi => by
          have := hstale (i + 1) (by omega)
          rwa [show attempt + (i + 1) = attempt + 1 + i by omega] at this)
      rw [show attempt + 1 + l - 1 = attempt + (l + 1) - 1 by omega] at hrec
      simp [retry_aux, h0, hl, hrec]

/-- C5: the retry wrapper returns the success value when the operation raises
the stale-reference failure `k < maxAttempts` times and then succeeds; it
propagates the last stale failure unchanged when all `maxAttempts` attempts
raise it; and any other failure kind propagates immediately from the first
attempt with no retry. -/
theorem c5_retry_guard {α} (op : Nat → Except PyErr α) (retries k : Nat)
    (v : α) (p : Nat → Nat) (e : PyErr) :
    (k < retries → (∀ i, i < k → ∃ q, op i = .error (.staleElem q)) →
      op k = .ok v → retry_on_stale_element op retries = .ok (some v))
    ∧ (1 ≤ retries → (∀ i, i < retries → op i = .error (.staleElem (p i))) →
      retry_on_stale_element op retries = .error (.staleElem (p (retries - 1))))
    ∧ (1 ≤ retries → op 0 = .error e → e.isStale = false →
      retry_on_stale_element op retries = .error e) := by
  refine ⟨?_, ?_, ?_⟩
  · intro hk hstale hok
    exact retry_aux_succeeds op v k 0 retries hk
      (fun i hi => by simpa using hstale i hi) (by simpa using hok)
  · intro hr hstale
    have := retry_aux_all_stale op p retries 0 hr
      (fun i hi => by simpa using hstale i hi)
    simpa using this
  · intro hr hop hns
    cases retries with
    | zero => omega
    | succ r =>
      cases e with
      | staleElem q => simp [PyErr.isStale] at hns
      | valueErr => simp [retry_on_stale_element, retry_aux, hop]
      | indexErr => simp [retry_on_stale_element, retry_aux, hop]
      | attributeErr => simp [retry_on_stale_element, retry_aux, hop]
      | fileNotFound => simp [retry_on_stale_element, retry_aux, hop]
      | timeoutExc => simp [retry_on_stale_element, retry_aux, hop]
      | noSuchElement => simp [retry_on_stale_element, retry_aux, hop]
      | otherErr q => simp [retry_on_stale_element, retry_aux, hop]

/-- C5 witness: an operation stale twice then succeeding under three
attempts returns the value; stale on all three attempts propagates the last
stale failure; a timeout failure propagates at once. -/
theorem c5_retry_guard_witness :
    retry_on_stale_element
        (fun i => if i < 2 then .error (.staleElem i) else .ok (42 : Nat)) 3
      = .ok (some 42)
    ∧ retry_on_stale_element (fun i => (.error (.staleElem i) : Except PyErr Nat)) 3
      = .error (.staleElem 2)
    ∧ retry_on_stale_element (fun _ => (.error .timeoutExc : Except PyErr Nat)) 3
      = .error .timeoutExc := by
  refine ⟨?_, ?_, ?_⟩
  · exact (c5_retry_guard _ 3 2 42 id .timeoutExc).1 (by omega)
      (fun i hi => ⟨i, by simp [hi]⟩) (by simp)
  · have := (c5_retry_guard (fun i => (.error (.staleElem i) : Except PyErr Nat))
      3 0 0 id .timeoutExc).2.1 (by omega) (fun i _ => rfl)
    simpa using this
  · exact (c5_retry_guard (fun _ => (.error .timeoutExc : Except PyErr Nat))
      3 0 0 id .timeoutExc).2.2 (by omega) rfl rfl

theorem retry_aux_pos {α} (op : Nat → Except PyErr α) :
    ∀ (left attempt : Nat), 1 ≤ left →
      (∃ i v, attempt ≤ i ∧ i < attempt + left ∧ op i = .ok v ∧
        retry_aux op attempt left = .ok (some v))
      ∨ (∃ i e, attempt ≤ i ∧ i < attempt + left ∧ op i = .error e ∧
        retry_aux op attempt left = .error e) := by
  intro left
  induction left with
  | zero => omega
  | succ l ih =>
    intro attempt _
    cases hop : op attempt with
    | ok v => exact .inl ⟨attempt, v, by omega, by omega, hop, by simp [retry_aux, hop]⟩
    | error e =>
      cases e with
      | staleElem q =>
        by_cases hl : l = 0
        · subst hl
          exact .inr ⟨attempt, .staleElem q, by omega, by omega, hop,
            by simp [retry_aux, hop]⟩
        · have hrec := ih (attempt + 1) (by omega)
          have heq : retry_aux op attempt (l + 1) = retry_aux op (attempt + 1) l := by
            simp [retry_aux, hop, hl]
          rcases hrec with ⟨i, v, h1, h2, h3, h4⟩ | ⟨i, e2, h1, h2, h3, h4⟩
          · exact .inl ⟨i, v, by omega, by omega, h3, by rw [heq]; exact h4⟩
          · exact .inr ⟨i, e2, by omega, by omega, h3, by rw [heq]; exact h4⟩
      | valueErr => exact .inr ⟨attempt, _, by omega, by omega, hop, by simp [retry_aux, hop]⟩
      | indexErr => exact .inr ⟨attempt, _, by omega, by omega, hop, by simp [retry_aux, hop]⟩
      | attributeErr => exact .inr ⟨attempt, _, by omega, by omega, hop, by simp [retry_aux, hop]⟩
      | fileNotFound => exact .inr ⟨attempt, _, by omega, by omega, hop, by simp [retry_aux, hop]⟩
      | timeoutExc => exact .inr ⟨attempt, _, by omega, by omega, hop, by simp [retry_aux, hop]⟩
      | noSuchElement => exact .inr ⟨attempt, _, by omega, by omega, hop, by simp [retry_aux, hop]⟩
      | otherErr q => exact .inr ⟨attempt, _, by omega, by omega, hop, by simp [retry_aux, hop]⟩

/-- C10: with an attempt count of zero the wrapper returns `None` for every
operation without consulting it; with any positive attempt count the call
either returns some attempt's success value or re-raises some attempt's
failure, so a silent `None` is only possible in the zero-attempt
configuration. -/
theorem c10_zero_attempt_none {α} :
    (∀ op : Nat → Except PyErr α, retry_on_stale_element op 0 = .ok none)
    ∧ (∀ (op : Nat → Except PyErr α) (retries : Nat), 1 ≤ retries →
        retry_on_stale_element op retries ≠ .ok none
        ∧ ((∃ i v, i < retries ∧ op i = .ok v ∧
              retry_on_stale_element op retries = .ok (some v))
          ∨ (∃ i e, i < retries ∧ op i = .error e ∧
              retry_on_stale_element op retries = .error e))) := by
  constructor
  · intro op
    rfl
  · intro op retries hr
    have h := retry_aux_pos op retries 0 hr
    constructor
    · rcases h with ⟨i, v, _, _, _, h4⟩ | ⟨i, e, _, _, _, h4⟩ <;>
        simp [retry_on_stale_element, h4]
    · rcases h with ⟨i, v, _, h2, h3, h4⟩ | ⟨i, e, _, h2, h3, h4⟩
      · exact .inl ⟨i, v, by omega, h3, h4⟩
      · exact .inr ⟨i, e, by omega, h3, h4⟩

/-- C10 witness: zero attempts yield `None` even for an always-failing
operation; one attempt with a succeeding operation does not yield `None`. -/
theorem c10_zero_attempt_none_witness :
    retry_on_stale_element (fun _ => (.error .timeoutExc : Except PyErr Nat)) 0 = .ok none
    ∧ retry_on_stale_element (fun _ => (.ok 5 : Except PyErr Nat)) 1 ≠ .ok none := by
  constructor
  · exact (c10_zero_attempt_none (α := Nat)).1 _
  · exact ((c10_zero_attempt_none (α := Nat)).2 _ 1 (by omega)).1

/-! ### Lemmas about the download watcher -/

theorem wait_aux_none (tmp_dir : List Char) (files : Nat → List (List Char))
    (ftype : List Char) :
    ∀ (left s : Nat),
      (∀ j, j < left → (files (s + j)).any isIncompleteMarker = true
        ∨ (files (s + j)).filter (matchesFileType ftype) = []) →
      wait_aux tmp_dir files ftype s left = (false, none) := by
  intro left
  induction left with
  | zero => intro s _; rfl
  | succ l ih =>
    intro s hb
    have h0 := hb 0 (by omega)
    rw [Nat.add_zero] at h0
    have hrec := ih (s + 1) (fun j hj => by
      have := hb (j + 1) (by omega)
      rwa [show s + (j + 1) = s + 1 + j by omega] at this)
    by_cases hm : (files s).any isIncompleteMarker = true
    · simp [wait_aux, hm, hrec]
    · have hf : (files s).filter (matchesFileType ftype) = [] := h0.resolve_left hm
      simp [wait_aux, hm, hf, hrec]

theorem wait_aux_found (tmp_dir : List Char) (files : Nat → List (List Char))
    (ftype : List Char) :
    ∀ (k s left : Nat) (f : List Char) (rest : List (List Char)), k < left →
      (∀ j, j < k → (files (s + j)).any isIncompleteMarker = true
        ∨ (files (s + j)).filter (matchesFileType ftype) = []) →
      (files (s + k)).any isIncompleteMarker = false →
      (files (s + k)).filter (matchesFileType ftype) = f :: rest →
      wait_aux tmp_dir files ftype s left = (true, some (pathJoin tmp_dir f)) := by
  intro k
  induction k with
  | zero =>
    intro s left f rest hlt _ hm hf
    rw [Nat.add_zero] at hm hf
    cases left with
    | zero => omega
    | succ l => simp [wait_aux, hm, hf]
  | succ k ih =>
    intro s left f rest hlt hb hm hf
    cases left with
    | zero => omega
    | succ l =>
      have h0 := hb 0 (by omega)
      rw [Nat.add_zero] at h0
      have hrec := ih (s + 1) l f rest (by omega)
        (fun j hj => by
          have := hb (j + 1) (by omega)
          rwa [show s + (j + 1) = s + 1 + j by omega] at this)
        (by rwa [show s + 1 + k = s + (k + 1) by omega])
        (by rwa [show s + 1 + k = s + (k + 1) by omega])
      by_cases hmk : (files s).any isIncompleteMarker = true
      · simp [wait_aux, hmk, hrec]
      · have hfk : (files s).filter (matchesFileType ftype) = [] := h0.resolve_left hmk
        simp [wait_aux, hmk, hfk, hrec]

/-- C6 counterexample: with expected extension `.PDF` and a staging directory
that always contains `x.PDF` (a name that ends with the expected extension,
so a fortiori matches it case-insensitively) and never contains an
incomplete marker, the watcher returns `(false, none)` instead of the
claimed `(true, path)`: line 248 lowercases only the file name, not the
expected extension. -/
theorem c6_watcher_counterexample :
    wait_for_download_complete ("downloads/tmp".toList)
        (fun _ => ["x.PDF".toList]) 1 (".PDF".toList) = (false, none)
    ∧ endswith_ci (".PDF".toList) ("x.PDF".toList) = true
    ∧ ["x.PDF".toList].any isIncompleteMarker = false :=
  ⟨rfl, rfl, rfl⟩

/-- C6 (amended): the watcher polls once per simulated second; at the first
poll at which no incomplete-marker file is present and some file's
*lowercased* name ends with the expected extension (case-insensitive in the
file name; the expected extension is compared verbatim, so for a lowercase
extension like `.pdf` the match is case-insensitive), it returns `(true,
path-of-the-first-such-file)`; if every poll within the bound sees a marker
file or no qualifying file, it returns `(false, none)`; in particular a
`report.pdf` appearing after 3 simulated seconds with timeout 10 yields
`(true, its path)`. -/
theorem c6_watcher_behavior (tmp_dir : List Char)
    (files : Nat → List (List Char)) (ftype : List Char) (timeout k : Nat)
    (f : List Char) (rest : List (List Char)) :
    (k < timeout →
      (∀ j, j < k → (files j).any isIncompleteMarker = true
        ∨ (files j).filter (matchesFileType ftype) = []) →
      (files k).any isIncompleteMarker = false →
      (files k).filter (matchesFileType ftype) = f :: rest →
      wait_for_download_complete tmp_dir files timeout ftype
        = (true, some (pathJoin tmp_dir f)))
    ∧ ((∀ j, j < timeout → (files j).any isIncompleteMarker = true
        ∨ (files j).filter (matchesFileType ftype) = []) →
      wait_for_download_complete tmp_dir files timeout ftype = (false, none))
    ∧ wait_for_download_complete ("downloads/tmp".toList)
        (fun n => if n < 2 then [] else ["report.pdf".toList]) 10 (".pdf".toList)
      = (true, some ("downloads/tmp/report.pdf".toList)) := by
  refine ⟨?_, ?_, ?_⟩
  · intro hk hb hm hf
    exact wait_aux_found tmp_dir files ftype k 0 timeout f rest hk
      (fun j hj => by simpa using hb j hj) (by simpa using hm) (by simpa using hf)
  · intro hb
    exact wait_aux_none tmp_dir files ftype timeout 0
      (fun j hj => by simpa using hb j hj)
  · rfl

/-- C6 witness: the positive scenario (file appears at the third poll) and
the marker-persists scenario (incomplete marker at every poll ⇒ timeout)
instantiated concretely. -/
theorem c6_watcher_behavior_witness :
    wait_for_download_complete ("downloads/tmp".toList)
        (fun n => if n < 2 then [] else ["report.pdf".toList]) 10 (".pdf".toList)
      = (true, some ("downloads/tmp/report.pdf".toList))
    ∧ wait_for_download_complete ("downloads/tmp".toList)
        (fun _ => ["x.crdownload".toList]) 10 (".pdf".toList) = (false, none) := by
  constructor
  · exact (c6_watcher_behavior ("downloads/tmp".toList)
      (fun n => if n < 2 then [] else ["report.pdf".toList]) (".pdf".toList)
      10 2 ("report.pdf".toList) []).1 (by omega)
      (fun j hj => by interval_cases j <;> exact .inr rfl) rfl rfl
  · exact (c6_watcher_behavior ("downloads/tmp".toList)
      (fun _ => ["x.crdownload".toList]) (".pdf".toList) 10 0 [] []).2.1
      (fun j _ => .inl rfl)

/-! ### Lemmas about the archiver -/

theorem natToChars_ne_nil (n : Nat) : natToChars n ≠ [] := by
  rw [natToChars, natToCharsAux]
  split <;> simp

theorem candPath_injective (ddir nm ext : List Char) :
    Function.Injective (candPath ddir nm ext) := by
  intro a b h
  rcases Nat.eq_zero_or_pos a with ha | ha <;>
    rcases Nat.eq_zero_or_pos b with hb | hb
  · omega
  · exfalso
    subst ha
    rw [candPath, candPath, if_pos rfl, if_neg (by omega)] at h
    have := congrArg List.length h
    simp [pathJoin, List.length_append] at this
    omega
  · exfalso
    subst hb
    rw [candPath, candPath, if_pos rfl, if_neg (by omega)] at h
    have := congrArg List.length h
    simp [pathJoin, List.length_append] at this
    omega
  · rw [candPath, candPath, if_neg (by omega), if_neg (by omega)] at h
    simp only [pathJoin] at h
    have h2 := List.append_cancel_left h
    have h3 : nm ++ '_' :: natToChars a ++ ext = nm ++ '_' :: natToChars b ++ ext :=
      List.cons_injective h2
    have h4 := List.append_cancel_right h3
    have h5 : ('_' : Char) :: natToChars a = '_' :: natToChars b :=
      List.append_cancel_left h4
    exact natToChars_injective (List.cons_injective h5)

theorem pathExists_iff {fs : FileMap} {p : List Char} :
    pathExists fs p = true ↔ p ∈ fs.map Prod.fst := by
  unfold pathExists
  rw [List.any_eq_true]
  constructor
  · rintro ⟨e, he, hep⟩
    exact List.mem_map.mpr ⟨e, he, by simpa using hep⟩
  · intro h
    obtain ⟨e, he, hep⟩ := List.mem_map.mp h
    exact ⟨e, he, by simpa using hep⟩

theorem cand_free_exists (fs : FileMap) (ddir nm ext : List Char) :
    ∃ m, m ≤ fs.length ∧ pathExists fs (candPath ddir nm ext m) = false := by
  by_contra hcon
  push_neg at hcon
  have hall : ∀ m, m ≤ fs.length → candPath ddir nm ext m ∈ fs.map Prod.fst := by
    intro m hm
    have hne := hcon m hm
    have hb : pathExists fs (candPath ddir nm ext m) = true := by
      revert hne
      cases pathExists fs (candPath ddir nm ext m) <;> simp
    exact pathExists_iff.mp hb
  have hnodup : ((List.range (fs.length + 1)).map (candPath ddir nm ext)).Nodup :=
    (List.nodup_range _).map (candPath_injective ddir nm ext)
  have hsub : (List.range (fs.length + 1)).map (candPath ddir nm ext) ⊆ fs.map Prod.fst := by
    intro p hp
    obtain ⟨m, hm, rfl⟩ := List.mem_map.mp hp
    exact hall m (by simpa [List.mem_range, Nat.lt_succ_iff] using hm)
  have hle := (hnodup.subperm hsub).length_le
  rw [List.length_map, List.length_range, List.length_map] at hle
  omega

theorem find_free_spec (fs : FileMap) (cand : Nat → List Char) :
    ∀ (fuel i k : Nat) (q : List Char),
      find_free fs cand i fuel = some (k, q) →
      q = cand k ∧ pathExists fs (cand k) = false ∧ i ≤ k ∧
        ∀ j, i ≤ j → j < k → pathExists fs (cand j) = true := by
  intro fuel
  induction fuel with
  | zero => intro i k q h; simp [find_free] at h
  | succ fl ih =>
    intro i k q h
    simp only [find_free] at h
    by_cases hp : pathExists fs (cand i) = true
    · rw [if_pos hp] at h
      obtain ⟨h1, h2, h3, h4⟩ := ih (i + 1) k q h
      refine ⟨h1, h2, by omega, fun j hj1 hj2 => ?_⟩
      rcases Nat.eq_or_lt_of_le hj1 with rfl | hlt
      · exact hp
      · exact h4 j (by omega) hj2
    · rw [if_neg hp] at h
      have h2 := Option.some.inj h
      have hk : i = k := congrArg Prod.fst h2
      have hq : cand i = q := congrArg Prod.snd h2
      subst hk
      subst hq
      exact ⟨rfl, by simpa using hp, le_refl i, fun j hj1 hj2 => by omega⟩

theorem find_free_succeeds (fs : FileMap) (cand : Nat → List Char) :
    ∀ (fuel i : Nat), (∃ m, m < fuel ∧ pathExists fs (cand (i + m)) = false) →
      (find_free fs cand i fuel).isSome := by
  intro fuel
  induction fuel with
  | zero => intro i ⟨m, hm, _⟩; omega
  | succ fl ih =>
    intro i ⟨m, hm, hfree⟩
    by_cases h0 : pathExists fs (cand i) = true
    · have hm0 : m ≠ 0 := by
        intro h
        subst h
        rw [Nat.add_zero] at hfree
        rw [h0] at hfree
        cases hfree
      have := ih (i + 1) ⟨m - 1, by omega,
        by rwa [show i + 1 + (m - 1) = i + m by omega]⟩
      simpa [find_free, h0] using this
    · simp [find_free, h0]

theorem moveFile_preserves (fs : FileMap) (src dst : List Char)
    (q : List Char × Nat) (hq : q ∈ fs) (hne : q.1 ≠ src) :
    q ∈ moveFile fs src dst := by
  unfold moveFile
  cases h : lookupFile fs src with
  | none => exact hq
  | some c => exact List.mem_append_left _ (List.mem_filter.mpr ⟨hq, by simpa using hne⟩)

theorem move_and_rename_general (fs : FileMap) (ddir today src pfx nm ext : List Char)
    (hs : src ≠ []) (h1 : pathExists fs src = true)
    (hnm : nm = (if pfx ≠ [] then pfx ++ '_' :: today ++ '_' :: (splitext (basename src)).1
                 else today ++ '_' :: (splitext (basename src)).1))
    (hext : ext = (splitext (basename src)).2) :
    ∃ k fs2,
      move_and_rename_file fs ddir today (some src) pfx
        = (some (candPath ddir nm ext k), fs2)
      ∧ pathExists fs (candPath ddir nm ext k) = false
      ∧ (∀ j, j < k → pathExists fs (candPath ddir nm ext j) = true)
      ∧ ∀ q ∈ fs, q.1 ≠ src → q ∈ fs2 := by
  obtain ⟨m, hm, hfree⟩ := cand_free_exists fs ddir nm ext
  have hsome := find_free_succeeds fs (candPath ddir nm ext) (fs.length + 1) 0
    ⟨m, by omega, by simpa using hfree⟩
  obtain ⟨⟨k, q⟩, hfind⟩ := Option.isSome_iff_exists.mp hsome
  obtain ⟨hq, hkfree, -, hbusy⟩ := find_free_spec fs _ (fs.length + 1) 0 k q hfind
  subst hq
  refine ⟨k, moveFile fs src (candPath ddir nm ext k), ?_, hkfree,
    fun j hj => hbusy j (by omega) hj,
    fun e he hne => moveFile_preserves fs src _ e he hne⟩
  simp only [move_and_rename_file, hs, h1, Bool.not_true, Bool.or_false,
    decide_eq_true_eq]
  rw [← hnm, ← hext]
  simp [hfind]

/-- C4: `move_and_rename_file` never overwrites an existing file: for every
file system, when the source exists the chosen destination is a path that
does not yet exist, every candidate with a smaller counter was occupied
(the `_1`, `_2`, … progression), and every entry other than the source keeps
its path and content; concretely, archiving a second staged `report.pdf`
with the same prefix on the same day yields the `_1` name, distinct from the
first, with the first archived file untouched. -/
theorem c4_never_overwrites (fs : FileMap) (ddir today src pfx nm ext : List Char) :
    (src ≠ [] → pathExists fs src = true →
      nm = (if pfx ≠ [] then pfx ++ '_' :: today ++ '_' :: (splitext (basename src)).1
            else today ++ '_' :: (splitext (basename src)).1) →
      ext = (splitext (basename src)).2 →
      ∃ k fs2,
        move_and_rename_file fs ddir today (some src) pfx
          = (some (candPath ddir nm ext k), fs2)
        ∧ pathExists fs (candPath ddir nm ext k) = false
        ∧ (∀ j, j < k → pathExists fs (candPath ddir nm ext j) = true)
        ∧ ∀ q ∈ fs, q.1 ≠ src → q ∈ fs2)
    ∧ move_and_rename_file [("/stage/report.pdf".toList, 0)] ("/archive".toList)
        ("2024-03-10".toList) (some ("/stage/report.pdf".toList))
        ("conta_123_ref_2024-03_venc_2024-03-05".toList)
      = (some ("/archive/conta_123_ref_2024-03_venc_2024-03-05_2024-03-10_report.pdf".toList),
         [("/archive/conta_123_ref_2024-03_venc_2024-03-05_2024-03-10_report.pdf".toList, 0)])
    ∧ move_and_rename_file
        [("/archive/conta_123_ref_2024-03_venc_2024-03-05_2024-03-10_report.pdf".toList, 0),
         ("/stage/report.pdf".toList, 1)] ("/archive".toList)
        ("2024-03-10".toList) (some ("/stage/report.pdf".toList))
        ("conta_123_ref_2024-03_venc_2024-03-05".toList)
      = (some ("/archive/conta_123_ref_2024-03_venc_2024-03-05_2024-03-10_report_1.pdf".toList),
         [("/archive/conta_123_ref_2024-03_venc_2024-03-05_2024-03-10_report.pdf".toList, 0),
          ("/archive/conta_123_ref_2024-03_venc_2024-03-05_2024-03-10_report_1.pdf".toList, 1)])
    ∧ ("/archive/conta_123_ref_2024-03_venc_2024-03-05_2024-03-10_report_1.pdf".toList)
        ≠ ("/archive/conta_123_ref_2024-03_venc_2024-03-05_2024-03-10_report.pdf".toList) := by
  refine ⟨?_, rfl, rfl, by decide⟩
  intro hs h1 hnm hext
  exact move_and_rename_general fs ddir today src pfx nm ext hs h1 hnm hext

/-- C4 witness: the general no-overwrite statement instantiated at the
concrete first-run scenario. -/
theorem c4_never_overwrites_witness :
    ∃ k fs2,
      move_and_rename_file [("/stage/report.pdf".toList, 0)] ("/archive".toList)
          ("2024-03-10".toList) (some ("/stage/report.pdf".toList))
          ("conta_123_ref_2024-03_venc_2024-03-05".toList)
        = (some (candPath ("/archive".toList)
            ("conta_123_ref_2024-03_venc_2024-03-05_2024-03-10_report".toList)
            (".pdf".toList) k), fs2)
      ∧ pathExists [("/stage/report.pdf".toList, 0)]
          (candPath ("/archive".toList)
            ("conta_123_ref_2024-03_venc_2024-03-05_2024-03-10_report".toList)
            (".pdf".toList) k) = false
      ∧ (∀ j, j < k → pathExists [("/stage/report.pdf".toList, 0)]
          (candPath ("/archive".toList)
            ("conta_123_ref_2024-03_venc_2024-03-05_2024-03-10_report".toList)
            (".pdf".toList) j) = true)
      ∧ ∀ q ∈ [(("/stage/report.pdf".toList : List Char), 0)],
          q.1 ≠ "/stage/report.pdf".toList →
          q ∈ fs2 :=
  (c4_never_overwrites [("/stage/report.pdf".toList, 0)] ("/archive".toList)
    ("2024-03-10".toList) ("/stage/report.pdf".toList)
    ("conta_123_ref_2024-03_venc_2024-03-05".toList)
    ("conta_123_ref_2024-03_venc_2024-03-05_2024-03-10_report".toList)
    (".pdf".toList)).1 (by decide) rfl (by decide) rfl

/-- C7: a missing source path returns `None` with the file system unchanged
(likewise a `None` source); otherwise the destination name is
`{namePfx}_{today}_{originalBaseName}{originalExtension}`, with the prefix
and its underscore omitted when the prefix is empty; the specification's
concrete example yields
`conta_123_ref_2024-03_venc_2024-03-05_2024-03-10_report.pdf`. -/
theorem c7_archive_contract (fs : FileMap) (ddir today src pfx : List Char) :
    (pathExists fs src = false →
      move_and_rename_file fs ddir today (some src) pfx = (none, fs))
    ∧ move_and_rename_file fs ddir today none pfx = (none, fs)
    ∧ (src ≠ [] → pathExists fs src = true →
      pathExists fs (pathJoin ddir
        ((if pfx ≠ [] then pfx ++ '_' :: today ++ '_' :: (splitext (basename src)).1
          else today ++ '_' :: (splitext (basename src)).1)
          ++ (splitext (basename src)).2)) = false →
      (move_and_rename_file fs ddir today (some src) pfx).1
        = some (pathJoin ddir
            ((if pfx ≠ [] then pfx ++ '_' :: today ++ '_' :: (splitext (basename src)).1
              else today ++ '_' :: (splitext (basename src)).1)
              ++ (splitext (basename src)).2)))
    ∧ (move_and_rename_file [("/stage/report.pdf".toList, 0)] ("/archive".toList)
        ("2024-03-10".toList) (some ("/stage/report.pdf".toList))
        ("conta_123_ref_2024-03_venc_2024-03-05".toList)).1
      = some ("/archive/conta_123_ref_2024-03_venc_2024-03-05_2024-03-10_report.pdf".toList) := by
  refine ⟨?_, rfl, ?_, rfl⟩
  · intro h
    simp [move_and_rename_file, h]
  · intro hs h1 h0
    have h0c : pathExists fs
        (candPath ddir
          (if pfx ≠ [] then pfx ++ '_' :: today ++ '_' :: (splitext (basename src)).1
           else today ++ '_' :: (splitext (basename src)).1)
          (splitext (basename src)).2 0) = false := by
      rw [candPath, if_pos rfl]
      exact h0
    obtain ⟨k, fs2, heq, -, hbusy, -⟩ := move_and_rename_general fs ddir today src pfx
      _ _ hs h1 rfl rfl
    have hk : k = 0 := by
      by_contra hk0
      have hb := hbusy 0 (Nat.pos_of_ne_zero hk0)
      rw [h0c] at hb
      exact Bool.noConfusion hb
    subst hk
    rw [heq]
    simp [candPath]

/-- C7 witness: the missing-source case and the naming formula instantiated
at the specification's concrete example. -/
theorem c7_archive_contract_witness :
    move_and_rename_file ([] : FileMap) ("/archive".toList) ("2024-03-10".toList)
        (some ("/stage/report.pdf".toList))
        ("conta_123_ref_2024-03_venc_2024-03-05".toList) = (none, [])
    ∧ (move_and_rename_file [("/stage/report.pdf".toList, 0)] ("/archive".toList)
        ("2024-03-10".toList) (some ("/stage/report.pdf".toList))
        ("conta_123_ref_2024-03_venc_2024-03-05".toList)).1
      = some (pathJoin ("/archive".toList)
          ((if ("conta_123_ref_2024-03_venc_2024-03-05".toList : List Char) ≠ []
            then "conta_123_ref_2024-03_venc_2024-03-05".toList ++ '_'
              :: "2024-03-10".toList ++ '_'
              :: (splitext (basename ("/stage/report.pdf".toList))).1
            else "2024-03-10".toList ++ '_'
              :: (splitext (basename ("/stage/report.pdf".toList))).1)
            ++ (splitext (basename ("/stage/report.pdf".toList))).2)) := by
  constructor
  · exact (c7_archive_contract [] ("/archive".toList) ("2024-03-10".toList)
      ("/stage/report.pdf".toList)
      ("conta_123_ref_2024-03_venc_2024-03-05".toList)).1 rfl
  · exact (c7_archive_contract [("/stage/report.pdf".toList, 0)] ("/archive".toList)
      ("2024-03-10".toList) ("/stage/report.pdf".toList)
      ("conta_123_ref_2024-03_venc_2024-03-05".toList)).2.2.1 (by decide) rfl rfl

/-- C1: in the specification's two-account scenario the run does archive
exactly one file (account 111's) and `process_accounts` returns normally,
but not by the claimed mechanism: account 222's unparseable token makes
`invoice_ref.strftime` raise `AttributeError` (no `None` check after
`extract_and_parse_dates`), which the account-loop's broad `except` catches,
ending all processing.  With an account whose unparseable-token invoice is
followed by a valid downloadable one, the valid invoice is never processed
and nothing is archived — the single invoice is not skipped and the loop
does not continue with the next option. -/
theorem c1_malformed_token_aborts_loop :
    (process_accounts envScenario ("downloads".toList) ("downloads/tmp".toList)
        ("2024-03-10".toList) []).events
      = [.procAccount ("111".toList), .procInvoice ("111".toList) ("03/2024".toList),
         .archived ("downloads/conta_111_ref_2024-03_venc_2024-03-05_2024-03-10_report.pdf".toList),
         .procAccount ("222".toList), .procInvoice ("222".toList) ("02/2024".toList),
         .errorCaught .attributeErr]
    ∧ (process_accounts envScenario ("downloads".toList) ("downloads/tmp".toList)
        ("2024-03-10".toList) []).fs
      = [("downloads/conta_111_ref_2024-03_venc_2024-03-05_2024-03-10_report.pdf".toList, 7)]
    ∧ (process_accounts envBadThenGood ("downloads".toList) ("downloads/tmp".toList)
        ("2024-03-10".toList) []).events
      = [.procAccount ("333".toList), .procInvoice ("333".toList) ("bad".toList),
         .errorCaught .attributeErr]
    ∧ (process_accounts envBadThenGood ("downloads".toList) ("downloads/tmp".toList)
        ("2024-03-10".toList) []).fs = [] :=
  ⟨rfl, rfl, rfl, rfl⟩

/-! ### Lemmas about the orchestrator's download-failure short-circuit -/

theorem append_singleton_decomp {α} (t : α) :
    ∀ (pre Δ0 post : List α), Δ0 ++ [t] = pre ++ t :: post → t ∉ Δ0 →
      post = [] := by
  intro pre
  induction pre with
  | nil =>
    intro Δ0 post h ht
    cases Δ0 with
    | nil => simpa using h
    | cons d Δ0 =>
      rw [List.cons_append, List.nil_append] at h
      obtain ⟨rfl, -⟩ := List.cons.inj h
      exact absurd (List.mem_cons_self _ _) ht
  | cons p pre ih =>
    intro Δ0 post h ht
    cases Δ0 with
    | nil =>
      have := congrArg List.length h
      simp [List.length_append] at this
    | cons d Δ0 =>
      rw [List.cons_append, List.cons_append] at h
      obtain ⟨rfl, h2⟩ := List.cons.inj h
      exact ih Δ0 post h2 (fun hm => ht (List.mem_cons_of_mem _ hm))

theorem run_one_invoice_events (env : OrchEnv) (ddir tdir today acct : List Char)
    (idx : Nat) (opt : InvOpt) (st : OrchState) :
    ∃ Δ, (run_one_invoice env ddir tdir today acct idx opt st).1.events
        = st.events ++ Δ
      ∧ ((run_one_invoice env ddir tdir today acct idx opt st).2 = .stopRun →
          Δ = [.procInvoice acct opt.text, .downloadTimeout])
      ∧ ((run_one_invoice env ddir tdir today acct idx opt st).2 ≠ .stopRun →
          Ev.downloadTimeout ∉ Δ) := by
  unfold run_one_invoice
  dsimp only
  repeat' split
  all_goals first
    | exact ⟨_, List.append_assoc _ _ _, by simp, by simp⟩
    | exact ⟨_, rfl, by simp, by simp⟩

theorem run_invoices_events (env : OrchEnv) (ddir tdir today acct : List Char) :
    ∀ (opts : List InvOpt) (idx : Nat) (st : OrchState),
      ∃ Δ, (run_invoices env ddir tdir today acct idx opts st).1.events
          = st.events ++ Δ
        ∧ ((run_invoices env ddir tdir today acct idx opts st).2 = .stopRun →
            ∃ Δ0, Δ = Δ0 ++ [Ev.downloadTimeout] ∧ Ev.downloadTimeout ∉ Δ0)
        ∧ ((run_invoices env ddir tdir today acct idx opts st).2 ≠ .stopRun →
            Ev.downloadTimeout ∉ Δ) := by
  intro opts
  induction opts with
  | nil =>
    intro idx st
    exact ⟨[], by simp [run_invoices], by simp [run_invoices], by simp [run_invoices]⟩
  | cons opt rest ih =>
    intro idx st
    obtain ⟨Δ1, he1, hstop1, hnot1⟩ := run_one_invoice_events env ddir tdir today
      acct idx opt st
    rcases h1 : run_one_invoice env ddir tdir today acct idx opt st with ⟨st2, c⟩
    rw [h1] at he1 hstop1 hnot1
    dsimp only at he1 hstop1 hnot1
    cases c with
    | next =>
      obtain ⟨Δ2, he2, hstop2, hnot2⟩ := ih (idx + 1) st2
      have heq : run_invoices env ddir tdir today acct idx (opt :: rest) st
          = run_invoices env ddir tdir today acct (idx + 1) rest st2 := by
        simp [run_invoices, h1]
      refine ⟨Δ1 ++ Δ2, ?_, ?_, ?_⟩
      · rw [heq, he2, he1, List.append_assoc]
      · intro hc
        rw [heq] at hc
        obtain ⟨Δ0, hd0, hn0⟩ := hstop2 hc
        exact ⟨Δ1 ++ Δ0, by rw [hd0, List.append_assoc],
          by simp [hnot1 (by simp), hn0]⟩
      · intro hc
        rw [heq] at hc
        simp [hnot1 (by simp), hnot2 hc]
    | stopRun =>
      have heq : run_invoices env ddir tdir today acct idx (opt :: rest) st
          = (st2, .stopRun) := by
        simp [run_invoices, h1]
      refine ⟨Δ1, by simp [heq, he1], ?_, ?_⟩
      · intro _
        exact ⟨[Ev.procInvoice acct opt.text], by simp [hstop1 rfl], by simp⟩
      · intro hc
        exact absurd (by simp [heq]) hc
    | raised e =>
      have heq : run_invoices env ddir tdir today acct idx (opt :: rest) st
          = (st2, .raised e) := by
        simp [run_invoices, h1]
      refine ⟨Δ1, by simp [heq, he1], ?_, ?_⟩
      · intro hc
        rw [heq] at hc
        simp at hc
      · intro _
        exact hnot1 (by simp)

theorem run_accounts_events (env : OrchEnv) (ddir tdir today : List Char) :
    ∀ (accts : List (List Char)) (st : OrchState),
      ∃ Δ, (run_accounts env ddir tdir today accts st).1.events
          = st.events ++ Δ
        ∧ ((run_accounts env ddir tdir today accts st).2 = .stopRun →
            ∃ Δ0, Δ = Δ0 ++ [Ev.downloadTimeout] ∧ Ev.downloadTimeout ∉ Δ0)
        ∧ ((run_accounts env ddir tdir today accts st).2 ≠ .stopRun →
            Ev.downloadTimeout ∉ Δ) := by
  intro accts
  induction accts with
  | nil =>
    intro st
    exact ⟨[], by simp [run_accounts], by simp [run_accounts], by simp [run_accounts]⟩
  | cons acct rest ih =>
    intro st
    by_cases ha : acct = []
    · obtain ⟨Δ2, he2, hstop2, hnot2⟩ := ih ⟨st.fs, st.events ++ [.procAccount acct]⟩
      have heq : run_accounts env ddir tdir today (acct :: rest) st
          = run_accounts env ddir tdir today rest ⟨st.fs, st.events ++ [.procAccount acct]⟩ := by
        simp [run_accounts, ha]
      refine ⟨[Ev.procAccount acct] ++ Δ2, ?_, ?_, ?_⟩
      · rw [heq, he2]
        simp
      · intro hc
        rw [heq] at hc
        obtain ⟨Δ0, hd0, hn0⟩ := hstop2 hc
        exact ⟨[Ev.procAccount acct] ++ Δ0, by rw [hd0]; simp, by simp [hn0]⟩
      · intro hc
        rw [heq] at hc
        simp [hnot2 hc]
    · obtain ⟨Δ1, he1, hstop1, hnot1⟩ := run_invoices_events env ddir tdir today
        acct (env.invoices acct) 0 ⟨st.fs, st.events ++ [.procAccount acct]⟩
      rcases h1 : run_invoices env ddir tdir today acct 0 (env.invoices acct)
        ⟨st.fs, st.events ++ [.procAccount acct]⟩ with ⟨st3, c⟩
      rw [h1] at he1 hstop1 hnot1
      dsimp only at he1 hstop1 hnot1
      cases c with
      | next =>
        obtain ⟨Δ2, he2, hstop2, hnot2⟩ := ih st3
        have heq : run_accounts env ddir tdir today (acct :: rest) st
            = run_accounts env ddir tdir today rest st3 := by
          simp [run_accounts, ha, h1]
        refine ⟨[Ev.procAccount acct] ++ Δ1 ++ Δ2, ?_, ?_, ?_⟩
        · rw [heq, he2, he1]
          simp
        · intro hc
          rw [heq] at hc
          obtain ⟨Δ0, hd0, hn0⟩ := hstop2 hc
          refine ⟨[Ev.procAccount acct] ++ Δ1 ++ Δ0, by rw [hd0]; simp, ?_⟩
          simp [hn0, hnot1 (by simp)]
        · intro hc
          rw [heq] at hc
          simp [hnot1 (by simp), hnot2 hc]
      | stopRun =>
        have heq : run_accounts env ddir tdir today (acct :: rest) st
            = (st3, .stopRun) := by
          simp [run_accounts, ha, h1]
        obtain ⟨Δ0, hd0, hn0⟩ := hstop1 rfl
        refine ⟨[Ev.procAccount acct] ++ Δ1, ?_, ?_, ?_⟩
        · rw [heq]
          dsimp only
          rw [he1]
          simp
        · intro _
          exact ⟨[Ev.procAccount acct] ++ Δ0, by rw [hd0]; simp, by simp [hn0]⟩
        · intro hc
          exact absurd (by simp [heq]) hc
      | raised e =>
        have heq : run_accounts env ddir tdir today (acct :: rest) st
            = (st3, .raised e) := by
          simp [run_accounts, ha, h1]
        refine ⟨[Ev.procAccount acct] ++ Δ1, ?_, ?_, ?_⟩
        · rw [heq]
          dsimp only
          rw [he1]
          simp
        · intro hc
          rw [heq] at hc
          simp at hc
        · intro _
          simp [hnot1 (by simp)]

/-- C8: when the download watcher reports failure for any invoice, the
orchestrator aborts the entire remaining run: the `downloadTimeout` event is
the last event of the whole run — nothing (no further invoice of the current
account, no subsequent account, no archive) is processed after it. -/
theorem c8_download_failure_aborts (env : OrchEnv) (ddir tdir today : List Char)
    (fs0 : FileMap) (pre post : List Ev) :
    (process_accounts env ddir tdir today fs0).events
      = pre ++ Ev.downloadTimeout :: post → post = [] := by
  intro h
  obtain ⟨Δ, he, hstop, hnot⟩ := run_accounts_events env ddir tdir today
    env.accounts ⟨fs0, []⟩
  rcases hr : run_accounts env ddir tdir today env.accounts ⟨fs0, []⟩ with ⟨st, c⟩
  rw [hr] at he hstop hnot
  dsimp only at he hstop hnot
  rw [List.nil_append] at he
  cases c with
  | next =>
    have hev : (process_accounts env ddir tdir today fs0).events = Δ := by
      simp [process_accounts, hr, he]
    rw [hev] at h
    have : Ev.downloadTimeout ∈ Δ := by
      rw [h]
      simp
    exact absurd this (hnot (by simp))
  | stopRun =>
    obtain ⟨Δ0, hd0, hn0⟩ := hstop rfl
    have hev : (process_accounts env ddir tdir today fs0).events
        = Δ0 ++ [Ev.downloadTimeout] := by
      simp [process_accounts, hr, he, hd0]
    rw [hev] at h
    exact append_singleton_decomp Ev.downloadTimeout pre Δ0 post h hn0
  | raised e =>
    have hnotin : Ev.downloadTimeout ∉ Δ := hnot (by simp)
    have hmem : Ev.downloadTimeout ∈ (process_accounts env ddir tdir today fs0).events := by
      rw [h]
      simp
    cases e with
    | noSuchElement =>
      have hev : (process_accounts env ddir tdir today fs0).events
          = Δ ++ [Ev.noAccountsFound] := by
        simp [process_accounts, hr, he]
      rw [hev] at hmem
      rcases List.mem_append.mp hmem with hm | hm
      · exact absurd hm hnotin
      · simp at hm
    | valueErr =>
      have hev : (process_accounts env ddir tdir today fs0).events
          = Δ ++ [Ev.errorCaught .valueErr] := by
        simp [process_accounts, hr, he]
      rw [hev] at hmem
      rcases List.mem_append.mp hmem with hm | hm
      · exact absurd hm hnotin
      · simp at hm
    | indexErr =>
      have hev : (process_accounts env ddir tdir today fs0).events
          = Δ ++ [Ev.errorCaught .indexErr] := by
        simp [process_accounts, hr, he]
      rw [hev] at hmem
      rcases List.mem_append.mp hmem with hm | hm
      · exact absurd hm hnotin
      · simp at hm
    | attributeErr =>
      have hev : (process_accounts env ddir tdir today fs0).events
          = Δ ++ [Ev.errorCaught .attributeErr] := by
        simp [process_accounts, hr, he]
      rw [hev] at hmem
      rcases List.mem_append.mp hmem with hm | hm
      · exact absurd hm hnotin
      · simp at hm
    | fileNotFound =>
      have hev : (process_accounts env ddir tdir today fs0).events
          = Δ ++ [Ev.errorCaught .fileNotFound] := by
        simp [process_accounts, hr, he]
      rw [hev] at hmem
      rcases List.mem_append.mp hmem with hm | hm
      · exact absurd hm hnotin
      · simp at hm
    | staleElem q =>
      have hev : (process_accounts env ddir tdir today fs0).events
          = Δ ++ [Ev.errorCaught (.staleElem q)] := by
        simp [process_accounts, hr, he]
      rw [hev] at hmem
      rcases List.mem_append.mp hmem with hm | hm
      · exact absurd hm hnotin
      · simp at hm
    | timeoutExc =>
      have hev : (process_accounts env ddir tdir today fs0).events
          = Δ ++ [Ev.errorCaught .timeoutExc] := by
        simp [process_accounts, hr, he]
      rw [hev] at hmem
      rcases List.mem_append.mp hmem with hm | hm
      · exact absurd hm hnotin
      · simp at hm
    | otherErr q =>
      have hev : (process_accounts env ddir tdir today fs0).events
          = Δ ++ [Ev.errorCaught (.otherErr q)] := by
        simp [process_accounts, hr, he]
      rw [hev] at hmem
      rcases List.mem_append.mp hmem with hm | hm
      · exact absurd hm hnotin
      · simp at hm

/-- C8 witness: in an environment whose first account's download times out
while a second account still has a downloadable invoice, the run's event
trace ends at the timeout — the theorem instantiated at that trace shows
nothing follows it. -/
theorem c8_download_failure_aborts_witness :
    (process_accounts envTimeoutFirst ("downloads".toList) ("downloads/tmp".toList)
        ("2024-03-10".toList) []).events
      = [Ev.procAccount ("111".toList),
         Ev.procInvoice ("111".toList) ("03/2024".toList)]
        ++ Ev.downloadTimeout :: []
    ∧ ([] : List Ev) = [] := by
  constructor
  · rfl
  · exact c8_download_failure_aborts envTimeoutFirst ("downloads".toList)
      ("downloads/tmp".toList) ("2024-03-10".toList) []
      [Ev.procAccount ("111".toList),
       Ev.procInvoice ("111".toList) ("03/2024".toList)] [] rfl

end Claro
